import Mathlib

/-!
Verification development for the Xpire server core (src/server/index.js).

Shallow embedding conventions:
* JavaScript timestamps are `Int` milliseconds since the epoch; the local
  clock is modelled as UTC, so `Date.prototype.setHours(0,0,0,0)` floors a
  timestamp to a multiple of a day, and `toISOString` / `new Date(iso)`
  form a bijection between stored `expiresOn` strings and timestamps, so a
  stored date field is modelled directly by its timestamp.
* JavaScript strings are `List Char` of unicode scalar values;
  absent-or-nullish fields are `none`. `String.prototype.trim` removes the
  full ECMAScript WhiteSpace and LineTerminator sets (tab, line feed,
  vertical tab, form feed, carriage return, space, no-break space, the
  Unicode space separators, line and paragraph separators, and the
  zero-width no-break space). `String.prototype.toLowerCase` is the
  default Unicode full lowercase conversion; it is modelled per code
  point, covering the ASCII and Latin-1 letters and the single
  length-changing mapping in Unicode, U+0130 → U+0069 U+0307; remaining
  code points, whose conversions are all one-to-one, are kept unchanged,
  which leaves every length bound proved below intact.
* The result of `Number(x)` on the quantity field is `Option Rat`:
  `none` models a non-finite result (NaN or an infinity), `some q` a
  finite double, modelled as a rational.
* The result of `new Date(x)` on the expiresOn field is `Option Int`:
  `none` models an invalid date, `some t` a valid timestamp.
* Thrown validation errors become `Except NormError`; the store mutation
  is sequenced after normalization exactly as in the source, so a thrown
  error leaves the collection untouched.
-/

namespace Xpire

/-- Milliseconds in one day, the `24 * 60 * 60 * 1000` of `daysUntil`. -/
def msPerDay : Int := 24 * 60 * 60 * 1000

/-- Embeds `startOfDay`: `new Date(d)` with hours, minutes, seconds and
milliseconds zeroed; with the local clock modelled as UTC this floors the
timestamp to the previous day boundary. -/
def startOfDay (t : Int) : Int := t - t % msPerDay

/-- Embeds `Math.round(a / b)` for an integer numerator and positive integer
denominator: JavaScript rounds half toward positive infinity, which is
`Int.fdiv (2 * a + b) (2 * b)`. -/
def jsRoundDiv (a b : Int) : Int := Int.fdiv (2 * a + b) (2 * b)

/-- Embeds `Math.round(q)` on a finite number: JavaScript rounds half toward
positive infinity, i.e. the floor of `q + 1/2`, computed here on the
numerator and denominator; `jsRound_eq_floor` below checks the formula. -/
def jsRound (q : Rat) : Int := (2 * q.num + q.den) / (2 * q.den)

/-- Sanity check: `jsRound q` is the floor of `q + 1/2`. -/
theorem jsRound_eq_floor (q : Rat) : jsRound q = ⌊q + 1 / 2⌋ := by
  have hden : (q.den : ℚ) ≠ 0 := Nat.cast_ne_zero.mpr q.den_nz
  have hmul : (q.num : ℚ) = q * (q.den : ℚ) :=
    (div_eq_iff hden).mp (Rat.num_div_den q)
  have h1 : q + 1 / 2 =
      ((2 * q.num + (q.den : Int) : Int) : ℚ) / ((2 * q.den : ℕ) : ℚ) := by
    push_cast
    field_simp
    rw [hmul]
    ring
  rw [jsRound, h1, Rat.floor_intCast_div_natCast]
  push_cast
  rfl

/-- Embeds `daysUntil(expiryDate, now)`:
`Math.round((startOfDay(expiry) - startOfDay(now)) / msPerDay)`. -/
def daysUntil (expiry now : Int) : Int :=
  jsRoundDiv (startOfDay expiry - startOfDay now) msPerDay

/-- The three freshness classifications returned by `itemStatus`. -/
inductive Status where
  | expired
  | expiring
  | fresh
deriving DecidableEq, Repr

/-- Embeds `itemStatus(expiryDate, now)` from src/server/index.js. -/
def itemStatus (expiry now : Int) : Status :=
  let daysLeft := daysUntil expiry now
  if daysLeft < 0 then Status.expired
  else if daysLeft ≤ 7 then Status.expiring
  else Status.fresh

/-- The characters removed by `String.prototype.trim`: the ECMAScript
WhiteSpace production (tab, vertical tab, form feed, space, no-break
space, zero-width no-break space, and the Unicode Space_Separator
category) together with the LineTerminator production (line feed,
carriage return, line separator, paragraph separator). -/
def isJsWs (c : Char) : Bool :=
  c.toNat = 0x9 || c.toNat = 0xA || c.toNat = 0xB || c.toNat = 0xC ||
    c.toNat = 0xD || c.toNat = 0x20 || c.toNat = 0xA0 || c.toNat = 0x1680 ||
    (decide (0x2000 ≤ c.toNat) && decide (c.toNat ≤ 0x200A)) ||
    c.toNat = 0x2028 || c.toNat = 0x2029 || c.toNat = 0x202F ||
    c.toNat = 0x205F || c.toNat = 0x3000 || c.toNat = 0xFEFF

/-- Embeds `String.prototype.trim`: drop whitespace from both ends. -/
def jsTrim (s : List Char) : List Char :=
  ((s.dropWhile isJsWs).reverse.dropWhile isJsWs).reverse

/-- Lowercases one code point following the default Unicode full lowercase
conversion used by `String.prototype.toLowerCase`: the ASCII and Latin-1
uppercase letters shift by 32, and U+0130 LATIN CAPITAL LETTER I WITH DOT
ABOVE expands to U+0069 U+0307, the only lowercase mapping in Unicode that
changes a string length. Code points outside these ranges have one-to-one
conversions and are kept unchanged here. -/
def jsLowerChar (c : Char) : List Char :=
  if c.toNat = 0x130 then ['i', '̇']
  else if 0x41 ≤ c.toNat ∧ c.toNat ≤ 0x5A then [Char.ofNat (c.toNat + 0x20)]
  else if 0xC0 ≤ c.toNat ∧ c.toNat ≤ 0xDE ∧ c.toNat ≠ 0xD7 then
    [Char.ofNat (c.toNat + 0x20)]
  else [c]

/-- Embeds `String.prototype.toLowerCase`, code point by code point. -/
def toLowerStr (s : List Char) : List Char := s.flatMap jsLowerChar

/-- Every code point lowercases to at most two code points. -/
theorem jsLowerChar_length (c : Char) : (jsLowerChar c).length ≤ 2 := by
  unfold jsLowerChar
  split
  · simp
  · split
    · simp
    · split
      · simp
      · simp

/-- Lowercasing at most doubles the length of a string. -/
theorem toLowerStr_length_le (s : List Char) :
    (toLowerStr s).length ≤ 2 * s.length := by
  unfold toLowerStr
  induction s with
  | nil => simp
  | cons c cs ih =>
    rw [List.flatMap_cons, List.length_append, List.length_cons]
    have := jsLowerChar_length c
    omega

/-- Embeds `normalizeString(input, {fallback, maxLength, lowercase})`:
`(input ?? fallback).toString().trim().slice(0, maxLength)`, lowercased
when requested. -/
def normalizeString (input : Option (List Char)) (fallback : List Char)
    (maxLength : Nat) (lowercase : Bool) : List Char :=
  let value := jsTrim (input.getD fallback)
  let limited := value.take maxLength
  if lowercase then toLowerStr limited else limited

/-- A persisted item record, the shape produced by `normalizeItem`. -/
structure Item where
  id : List Char
  name : List Char
  category : List Char
  quantity : Int
  expiresOn : Int
  notes : List Char
  createdAt : Int
  updatedAt : Int
deriving DecidableEq, Repr

/-- The fields `normalizeItem` reads off a payload object, after the
JavaScript coercions described in the module header. -/
structure RawItem where
  id : Option (List Char)
  name : Option (List Char)
  category : Option (List Char)
  quantity : Option Rat
  expiresOn : Option Int
  notes : Option (List Char)
  createdAt : Option Int
deriving DecidableEq, Repr

/-- A request payload: either not a usable object (null, non-object, or an
array, all rejected by the guard in `normalizeItem`) or an object with the
fields of `RawItem`. -/
inductive Payload where
  | nonObject
  | obj (r : RawItem)
deriving DecidableEq, Repr

/-- The three validation errors `normalizeItem` can throw. -/
inductive NormError where
  /-- Message `item payload must be a JSON object`. -/
  | notObject
  /-- Message `expiresOn must be a valid ISO date value`. -/
  | badExpiresOn
  /-- Message `name is required`. -/
  | nameRequired
deriving DecidableEq, Repr

deriving instance DecidableEq for Except

/-- Fallback `"general"` for the category field. -/
def generalStr : List Char := "general".toList

/-- The object literal returned by the success branch of `normalizeItem`:
`quantity` is `Math.max(1, Math.min(999, Math.round(quantityInput)))` when
`Number(input.quantity)` is finite and `1` otherwise. -/
def normalizedRecord (r : RawItem) (genId : List Char) (now expiry : Int) :
    Item :=
  { id := r.id.getD genId
    name := normalizeString r.name [] 80 false
    category := normalizeString r.category generalStr 40 true
    quantity :=
      match r.quantity with
      | some q => max 1 (min 999 (jsRound q))
      | none => 1
    expiresOn := startOfDay expiry
    notes := normalizeString r.notes [] 240 false
    createdAt := r.createdAt.getD now
    updatedAt := now }

/-- Embeds `normalizeItem(input, now)`. `genId` is the value
`crypto.randomUUID()` would return, supplied by the environment. -/
def normalizeItem (input : Payload) (genId : List Char) (now : Int) :
    Except NormError Item :=
  match input with
  | Payload.nonObject => Except.error NormError.notObject
  | Payload.obj r =>
    match r.expiresOn with
    | none => Except.error NormError.badExpiresOn
    | some expiry =>
      let name := normalizeString r.name [] 80 false
      if name = [] then Except.error NormError.nameRequired
      else Except.ok (normalizedRecord r genId now expiry)

/-- Characterization of successful normalization: the payload is an object,
`expiresOn` parses, the trimmed name is non-empty, and the result is the
object literal of the success branch. -/
theorem normalizeItem_ok_iff (r : RawItem) (genId : List Char) (now : Int)
    (item : Item) :
    normalizeItem (Payload.obj r) genId now = Except.ok item ↔
      ∃ expiry, r.expiresOn = some expiry ∧
        normalizeString r.name [] 80 false ≠ [] ∧
        item = normalizedRecord r genId now expiry := by
  constructor
  · intro h
    cases hexp : r.expiresOn with
    | none => simp [normalizeItem, hexp] at h
    | some expiry =>
      simp only [normalizeItem, hexp] at h
      split at h
      · simp at h
      · rw [Except.ok.injEq] at h
        exact ⟨expiry, rfl, by assumption, h.symm⟩
  · rintro ⟨expiry, hexp, hname, hitem⟩
    simp [normalizeItem, hexp, hname, hitem]

/-- C1: for every valid expiry-date/now pair, `itemStatus` returns exactly
one of expired, expiring, fresh, partitioned by `daysUntil`: expired iff
`daysUntil < 0`, expiring iff `0 ≤ daysUntil ≤ 7`, fresh iff
`daysUntil > 7`. -/
theorem itemStatus_partition (expiry now : Int) :
    (itemStatus expiry now = Status.expired ↔ daysUntil expiry now < 0) ∧
    (itemStatus expiry now = Status.expiring ↔
      (0 ≤ daysUntil expiry now ∧ daysUntil expiry now ≤ 7)) ∧
    (itemStatus expiry now = Status.fresh ↔ 7 < daysUntil expiry now) := by
  unfold itemStatus
  by_cases h1 : daysUntil expiry now < 0 <;>
    by_cases h2 : daysUntil expiry now ≤ 7 <;>
      simp [h1, h2] <;> omega

/-- C2: every accepted input stores an integer quantity in `[1, 999]`;
input quantity `0` stores `1`, input `5000` stores `999`, and a non-finite
quantity stores `1`. -/
theorem quantity_clamped (r : RawItem) (genId : List Char) (now : Int)
    (item : Item)
    (h : normalizeItem (Payload.obj r) genId now = Except.ok item) :
    (1 ≤ item.quantity ∧ item.quantity ≤ 999) ∧
    (r.quantity = some 0 → item.quantity = 1) ∧
    (r.quantity = some 5000 → item.quantity = 999) ∧
    (r.quantity = none → item.quantity = 1) := by
  obtain ⟨expiry, hexp, hname, hitem⟩ :=
    (normalizeItem_ok_iff r genId now item).mp h
  cases hq : r.quantity with
  | none =>
    have hquant : item.quantity = 1 := by
      rw [hitem]; simp [normalizedRecord, hq]
    exact ⟨by rw [hquant]; exact ⟨le_refl 1, by norm_num⟩,
      by simp [hq], by simp [hq], fun _ => hquant⟩
  | some q =>
    have hquant : item.quantity = max 1 (min 999 (jsRound q)) := by
      rw [hitem]; simp [normalizedRecord, hq]
    refine ⟨?_, ?_, ?_, by simp [hq]⟩
    · rw [hquant]
      exact ⟨le_max_left 1 _, max_le (by norm_num) (min_le_left _ _)⟩
    · intro hq0
      rw [Option.some.injEq] at hq0
      rw [hquant, hq0]
      decide
    · intro hq5
      rw [Option.some.injEq] at hq5
      rw [hquant, hq5]
      decide

/-- Concrete raw input for the C2 witness: quantity `0`. -/
def rawQzero : RawItem :=
  { id := none, name := some ['m'], category := none, quantity := some 0
    expiresOn := some 0, notes := none, createdAt := none }

/-- Concrete normalized record for the C2 witness. -/
def itemQzero : Item :=
  { id := ['g'], name := ['m'], category := generalStr, quantity := 1
    expiresOn := 0, notes := [], createdAt := 5, updatedAt := 5 }

/-- Witness for C2 at the concrete input `rawQzero`. -/
theorem quantity_clamped_witness :
    (1 ≤ itemQzero.quantity ∧ itemQzero.quantity ≤ 999) ∧
    (rawQzero.quantity = some 0 → itemQzero.quantity = 1) ∧
    (rawQzero.quantity = some 5000 → itemQzero.quantity = 999) ∧
    (rawQzero.quantity = none → itemQzero.quantity = 1) :=
  quantity_clamped rawQzero ['g'] 5 itemQzero (by decide)

/-- A partial JSON patch for `update`: the outer `Option` records whether
the key is an own property of the patch object (and thus overrides the
spread of the stored record), the inner value is the field value with the
same coercions as `RawItem`. The `id` and `createdAt` keys of the patch
are always overridden by the object literal in `update`, as in the
source. -/
structure Patch where
  id : Option (Option (List Char))
  name : Option (Option (List Char))
  category : Option (Option (List Char))
  quantity : Option (Option Rat)
  expiresOn : Option (Option Int)
  notes : Option (Option (List Char))
  createdAt : Option (Option Int)
deriving DecidableEq, Repr

/-- A stored record viewed as a raw payload again, as spreading it into an
object literal produces: every field present, the stored quantity a finite
number and the stored `expiresOn` parsing back to its timestamp. -/
def itemToRaw (item : Item) : RawItem :=
  { id := some item.id
    name := some item.name
    category := some item.category
    quantity := some (item.quantity : Rat)
    expiresOn := some item.expiresOn
    notes := some item.notes
    createdAt := some item.createdAt }

/-- Embeds the merged object `{...items[index], ...patch, id, createdAt:
items[index].createdAt}` built by `update`. -/
def mergePatch (old : Item) (patch : Patch) (id : List Char) : RawItem :=
  { id := some id
    name := patch.name.getD (some old.name)
    category := patch.category.getD (some old.category)
    quantity := patch.quantity.getD (some (old.quantity : Rat))
    expiresOn := patch.expiresOn.getD (some old.expiresOn)
    notes := patch.notes.getD (some old.notes)
    createdAt := some old.createdAt }

/-- Embeds `list()`: a snapshot copy of the collection. -/
def Store.list (items : List Item) : List Item := items

/-- Embeds `create(rawItem, now)`: normalization is sequenced before the
push, so a thrown validation error leaves the collection unchanged. -/
def Store.create (items : List Item) (raw : Payload) (genId : List Char)
    (now : Int) : List Item × Except NormError Item :=
  match normalizeItem raw genId now with
  | Except.error e => (items, Except.error e)
  | Except.ok item => (items ++ [item], Except.ok item)

/-- Embeds `update(id, patch, now)`: finds the first record with the given
id (`findIndex`), normalizes the merged object, replaces the record in
place on success; `none` models the `null` returned for an unknown id. -/
def Store.update (items : List Item) (id : List Char) (patch : Patch)
    (genId : List Char) (now : Int) :
    List Item × Option (Except NormError Item) :=
  match items with
  | [] => ([], none)
  | it :: rest =>
    if it.id = id then
      match normalizeItem (Payload.obj (mergePatch it patch id)) genId now with
      | Except.error e => (it :: rest, some (Except.error e))
      | Except.ok merged => (merged :: rest, some (Except.ok merged))
    else
      let result := Store.update rest id patch genId now
      (it :: result.1, result.2)

/-- Embeds `remove(id)`: deletes the first record with the given id
(`findIndex` + `splice`), returning whether one was found. -/
def Store.remove (items : List Item) (id : List Char) : List Item × Bool :=
  match items with
  | [] => ([], false)
  | it :: rest =>
    if it.id = id then (rest, true)
    else
      let result := Store.remove rest id
      (it :: result.1, result.2)

/-- An API response item: the stored record plus the read-time-derived
fields added by `toApiItem`. -/
structure ApiItem extends Item where
  daysLeft : Int
  status : Status
deriving DecidableEq, Repr

/-- Embeds `toApiItem(item, now)`: the spread of the stored record plus
`daysLeft` and `status`. -/
def toApiItem (item : Item) (now : Int) : ApiItem :=
  { toItem := item
    daysLeft := daysUntil item.expiresOn now
    status := itemStatus item.expiresOn now }

/-- One Store mutation, for reasoning about operation sequences. -/
inductive StoreOp where
  | create (raw : Payload) (genId : List Char) (now : Int)
  | update (id : List Char) (patch : Patch) (genId : List Char) (now : Int)
  | remove (id : List Char)
deriving DecidableEq, Repr

/-- Applies one mutation to the collection, keeping only the new state. -/
def applyOp (items : List Item) : StoreOp → List Item
  | StoreOp.create raw genId now => (Store.create items raw genId now).1
  | StoreOp.update id patch genId now =>
      (Store.update items id patch genId now).1
  | StoreOp.remove id => (Store.remove items id).1

/-- Applies a sequence of mutations in order. -/
def applyOps (items : List Item) : List StoreOp → List Item
  | [] => items
  | op :: ops => applyOps (applyOp items op) ops

/-- The ids of the collection, in order. -/
def ids (items : List Item) : List (List Char) := items.map Item.id

/-- The id `create` stores for a payload: the supplied one if the payload
carries an `id` field, else the generated uuid. -/
def createId (raw : Payload) (genId : List Char) : List Char :=
  match raw with
  | Payload.nonObject => genId
  | Payload.obj r => r.id.getD genId

/-- Freshness discipline on a sequence of mutations: every create brings
an id (supplied or generated) not already present at that point. -/
def freshIds (items : List Item) : List StoreOp → Bool
  | [] => true
  | op :: ops =>
    (match op with
     | StoreOp.create raw genId _ => !((ids items).contains (createId raw genId))
     | StoreOp.update _ _ _ _ => true
     | StoreOp.remove _ => true) && freshIds (applyOp items op) ops

/-- The id stored by a successful normalization is the supplied-or-generated
one. -/
theorem normalizeItem_ok_id (raw : Payload) (genId : List Char) (now : Int)
    (item : Item) (h : normalizeItem raw genId now = Except.ok item) :
    item.id = createId raw genId := by
  cases raw with
  | nonObject => simp [normalizeItem] at h
  | obj r =>
    obtain ⟨expiry, hexp, hname, hitem⟩ := (normalizeItem_ok_iff r genId now item).mp h
    rw [hitem]
    rfl

/-- `update` never changes the list of ids: the replacement record keeps
the id it was looked up by. -/
theorem update_ids (items : List Item) (id : List Char) (patch : Patch)
    (genId : List Char) (now : Int) :
    ids (Store.update items id patch genId now).1 = ids items := by
  induction items with
  | nil => rfl
  | cons it rest ih =>
    simp only [Store.update]
    split
    case isTrue heq =>
      cases hn : normalizeItem (Payload.obj (mergePatch it patch id)) genId now with
      | error e => rfl
      | ok merged =>
        have hid : merged.id = id := normalizeItem_ok_id _ _ _ _ hn
        simp [ids, hid, heq]
    case isFalse heq =>
      simpa [ids] using ih

/-- `remove` keeps a sublist of the collection. -/
theorem remove_sublist (items : List Item) (id : List Char) :
    (Store.remove items id).1.Sublist items := by
  induction items with
  | nil => simp [Store.remove]
  | cons it rest ih =>
    simp only [Store.remove]
    split
    · exact List.sublist_cons_self it rest
    · exact List.Sublist.cons₂ it ih

/-- Counterexample to C3 as stated: from the singleton collection
`[itemA]` whose ids are distinct, a create whose raw input supplies the
already-used id `"a"` succeeds and yields two records with the same id. -/
def itemA : Item :=
  { id := ['a'], name := ['x'], category := generalStr, quantity := 1
    expiresOn := 0, notes := [], createdAt := 0, updatedAt := 0 }

/-- Raw create input supplying the already-present id `"a"`. -/
def rawDupId : RawItem :=
  { id := some ['a'], name := some ['y'], category := none, quantity := none
    expiresOn := some 0, notes := none, createdAt := none }

/-- C3 counterexample: id uniqueness is not an invariant when a create
input supplies its own, already-used id. -/
theorem create_duplicate_id_counterexample :
    (ids [itemA]).Nodup ∧
    ¬ (ids (applyOps [itemA]
        [StoreOp.create (Payload.obj rawDupId) ['g'] 0])).Nodup := by
  constructor <;> decide

/-- C3 amended: starting from a collection with pairwise-distinct ids, a
sequence of create, update and remove operations preserves distinctness
provided each create carries an effective id (supplied or generated) that
is not already in the collection. -/
theorem ids_nodup_invariant (items : List Item) (ops : List StoreOp)
    (h0 : (ids items).Nodup) (hfresh : freshIds items ops = true) :
    (ids (applyOps items ops)).Nodup := by
  induction ops generalizing items with
  | nil => exact h0
  | cons op ops ih =>
    rw [freshIds.eq_def, Bool.and_eq_true] at hfresh
    refine ih (applyOp items op) ?_ hfresh.2
    cases op with
    | create raw genId now =>
      have hmem : createId raw genId ∉ ids items := by
        have := hfresh.1
        simpa using this
      cases hn : normalizeItem raw genId now with
      | error e => simpa [applyOp, Store.create, hn] using h0
      | ok item =>
        have hid : item.id = createId raw genId := normalizeItem_ok_id _ _ _ _ hn
        have : ids (items ++ [item]) = ids items ++ [item.id] := by simp [ids]
        simp only [applyOp, Store.create, hn, this]
        rw [List.nodup_append]
        exact ⟨h0, List.nodup_singleton _, by simpa [List.disjoint_singleton, hid] using hmem⟩
    | update id patch genId now =>
      simpa [applyOp, update_ids] using h0
    | remove id =>
      exact (List.Sublist.map Item.id (remove_sublist items id)).nodup h0

/-- Fresh raw create input for the C3 witness. -/
def rawFreshB : RawItem :=
  { id := some ['b'], name := some ['y'], category := none, quantity := none
    expiresOn := some 0, notes := none, createdAt := none }

/-- Rename-only patch for the C3 witness. -/
def patchRename : Patch :=
  { id := none, name := some (some ['z']), category := none, quantity := none
    expiresOn := none, notes := none, createdAt := none }

/-- Operation sequence for the C3 witness: a fresh create, an update and a
remove. -/
def opsW : List StoreOp :=
  [StoreOp.create (Payload.obj rawFreshB) ['g'] 0,
   StoreOp.update ['a'] patchRename ['h'] 1,
   StoreOp.remove ['b']]

/-- Witness for the amended C3 at a concrete operation sequence. -/
theorem ids_nodup_invariant_witness :
    (ids (applyOps [itemA] opsW)).Nodup :=
  ids_nodup_invariant [itemA] opsW (by decide) (by decide)

/-- C4: a successful `update(id, patch, now)` finds a stored record with
that id, and the replacement keeps its id and createdAt, stamps updatedAt
with now, and equals the normalization of the old record merged with the
patch. -/
theorem update_frame (items : List Item) (id : List Char) (patch : Patch)
    (genId : List Char) (now : Int) (items' : List Item) (merged : Item)
    (h : Store.update items id patch genId now =
      (items', some (Except.ok merged))) :
    ∃ old ∈ items, old.id = id ∧
      merged.id = old.id ∧ merged.createdAt = old.createdAt ∧
      merged.updatedAt = now ∧
      normalizeItem (Payload.obj (mergePatch old patch id)) genId now =
        Except.ok merged := by
  induction items generalizing items' with
  | nil => simp [Store.update] at h
  | cons it rest ih =>
    simp only [Store.update] at h
    by_cases heq : it.id = id
    · rw [if_pos heq] at h
      cases hn : normalizeItem (Payload.obj (mergePatch it patch id)) genId now with
      | error e => rw [hn] at h; simp at h
      | ok m =>
        rw [hn] at h
        rw [Prod.mk.injEq, Option.some.injEq, Except.ok.injEq] at h
        obtain ⟨hitems, hm⟩ := h
        subst hm
        obtain ⟨expiry, hexp, hname, hitem⟩ := (normalizeItem_ok_iff _ _ _ _).mp hn
        refine ⟨it, List.mem_cons_self it rest, heq, ?_, ?_, ?_, hn⟩
        · rw [heq]
          exact normalizeItem_ok_id _ _ _ _ hn
        · rw [hitem]; rfl
        · rw [hitem]; rfl
    · rw [if_neg heq] at h
      rw [Prod.mk.injEq] at h
      obtain ⟨hitems, h2⟩ := h
      obtain ⟨old, hmem, hrest⟩ :=
        ih (Store.update rest id patch genId now).1 (by rw [← h2])
      exact ⟨old, List.mem_cons_of_mem it hmem, hrest⟩

/-- Normalized result of the C4 witness update. -/
def itemAupd : Item :=
  { id := ['a'], name := ['z'], category := generalStr, quantity := 1
    expiresOn := 0, notes := [], createdAt := 0, updatedAt := 7 }

/-- Witness for C4 at a concrete successful update. -/
theorem update_frame_witness :
    ∃ old ∈ [itemA], old.id = ['a'] ∧
      itemAupd.id = old.id ∧ itemAupd.createdAt = old.createdAt ∧
      itemAupd.updatedAt = 7 ∧
      normalizeItem (Payload.obj (mergePatch old patchRename ['a'])) ['h'] 7 =
        Except.ok itemAupd :=
  update_frame [itemA] ['a'] patchRename ['h'] 7 [itemAupd] itemAupd (by decide)

/-- C5: when normalization fails, `create` and `update` surface the
validation error and leave the collection unchanged. -/
theorem validation_failure_atomic (items : List Item) (raw : Payload)
    (id : List Char) (patch : Patch) (genId : List Char) (now : Int)
    (e e2 : NormError) :
    (normalizeItem raw genId now = Except.error e →
      Store.create items raw genId now = (items, Except.error e)) ∧
    ((Store.update items id patch genId now).2 = some (Except.error e2) →
      (Store.update items id patch genId now).1 = items) := by
  constructor
  · intro h
    simp [Store.create, h]
  · induction items with
    | nil => intro _; rfl
    | cons it rest ih =>
      intro h
      simp only [Store.update] at h ⊢
      by_cases heq : it.id = id
      · rw [if_pos heq] at h ⊢
        cases hn : normalizeItem (Payload.obj (mergePatch it patch id)) genId now with
        | error e3 => rfl
        | ok m =>
          rw [hn] at h
          simp at h
      · rw [if_neg heq] at h ⊢
        show it :: (Store.update rest id patch genId now).1 = it :: rest
        rw [ih h]

/-- Raw create input with no name, for the C5 witness. -/
def rawNoName : RawItem :=
  { id := none, name := none, category := none, quantity := none
    expiresOn := some 0, notes := none, createdAt := none }

/-- Patch whose own `name` key is nullish, for the C5 witness: the merge
then normalizes with an empty name and fails. -/
def patchNoName : Patch :=
  { id := none, name := some none, category := none, quantity := none
    expiresOn := none, notes := none, createdAt := none }

/-- Witness for C5 at a concrete failing create and failing update. -/
theorem validation_failure_atomic_witness :
    Store.create [itemA] (Payload.obj rawNoName) ['g'] 3 =
      ([itemA], Except.error NormError.nameRequired) ∧
    (Store.update [itemA] ['a'] patchNoName ['g'] 3).1 = [itemA] :=
  ⟨(validation_failure_atomic [itemA] (Payload.obj rawNoName) ['a']
      patchNoName ['g'] 3 NormError.nameRequired NormError.nameRequired).1
      (by decide),
   (validation_failure_atomic [itemA] (Payload.obj rawNoName) ['a']
      patchNoName ['g'] 3 NormError.nameRequired NormError.nameRequired).2
      (by decide)⟩

/-- C6: a successful create appends the returned record, a subsequent
`list()` contains it with identical persisted fields, and its API read
representation differs only by the added `daysLeft` and `status`. -/
theorem create_roundtrip (items : List Item) (raw : Payload)
    (genId : List Char) (now now2 : Int) (items' : List Item) (r : Item)
    (h : Store.create items raw genId now = (items', Except.ok r)) :
    items' = items ++ [r] ∧ r ∈ Store.list items' ∧
      (toApiItem r now2).toItem = r := by
  cases hn : normalizeItem raw genId now with
  | error e =>
    simp only [Store.create, hn] at h
    simp at h
  | ok item =>
    simp only [Store.create, hn] at h
    rw [Prod.mk.injEq, Except.ok.injEq] at h
    obtain ⟨hitems, hr⟩ := h
    subst hr
    subst hitems
    exact ⟨rfl, by simp [Store.list], rfl⟩

/-- Normalized result of the C6 witness create. -/
def itemB : Item :=
  { id := ['b'], name := ['y'], category := generalStr, quantity := 1
    expiresOn := 0, notes := [], createdAt := 0, updatedAt := 0 }

/-- Witness for C6 at a concrete successful create. -/
theorem create_roundtrip_witness :
    [itemB] = ([] : List Item) ++ [itemB] ∧ itemB ∈ Store.list [itemB] ∧
      (toApiItem itemB 9).toItem = itemB :=
  create_roundtrip [] (Payload.obj rawFreshB) ['g'] 0 9 [itemB] itemB (by decide)

/-- Flooring to the day boundary is idempotent. -/
theorem startOfDay_idem (t : Int) : startOfDay (startOfDay t) = startOfDay t := by
  unfold startOfDay msPerDay
  omega

/-- Rounding an integer-valued number returns it. -/
theorem jsRound_intCast (n : Int) : jsRound (n : ℚ) = n := by
  simp [jsRound, Rat.intCast_num, Rat.intCast_den]
  omega

/-- The quantity stored by a successful normalization lies in `[1, 999]`. -/
theorem normalizeItem_ok_quantity (r : RawItem) (genId : List Char)
    (now : Int) (item : Item)
    (h : normalizeItem (Payload.obj r) genId now = Except.ok item) :
    1 ≤ item.quantity ∧ item.quantity ≤ 999 := by
  obtain ⟨expiry, hexp, hname, hitem⟩ :=
    (normalizeItem_ok_iff r genId now item).mp h
  cases hq : r.quantity with
  | none =>
    have : item.quantity = 1 := by rw [hitem]; simp [normalizedRecord, hq]
    rw [this]
    exact ⟨le_refl 1, by norm_num⟩
  | some q =>
    have : item.quantity = max 1 (min 999 (jsRound q)) := by
      rw [hitem]; simp [normalizedRecord, hq]
    rw [this]
    exact ⟨le_max_left 1 _, max_le (by norm_num) (min_le_left _ _)⟩

/-- Raw create input with a 41-character category whose 40th character is a
space, for the C7 counterexample. -/
def rawLongCat : RawItem :=
  { id := some ['a'], name := some ['n']
    category := some (List.replicate 39 'c' ++ [' ', 'b'])
    quantity := none, expiresOn := some 0, notes := none, createdAt := none }

/-- First normalization of `rawLongCat`: the stored category is truncated
to 40 characters and ends in a space. -/
def itemLongCat : Item :=
  { id := ['a'], name := ['n'], category := List.replicate 39 'c' ++ [' ']
    quantity := 1, expiresOn := 0, notes := [], createdAt := 0
    updatedAt := 0 }

/-- Second normalization of the stored record: the trailing space is
trimmed away, so the category shrinks to 39 characters. -/
def itemLongCat2 : Item :=
  { itemLongCat with category := List.replicate 39 'c', updatedAt := 1 }

/-- C7 counterexample: a record output by `normalizeItem` whose category
was truncated onto a space changes under re-normalization in a field other
than `updatedAt`. -/
theorem normalize_not_idempotent_counterexample :
    normalizeItem (Payload.obj rawLongCat) ['a'] 0 = Except.ok itemLongCat ∧
    normalizeItem (Payload.obj (itemToRaw itemLongCat)) ['a'] 1 =
      Except.ok itemLongCat2 ∧
    itemLongCat2.category ≠ itemLongCat.category :=
  ⟨by decide, by decide, by decide⟩

/-- C7 amended: re-normalizing a record output by `normalizeItem` changes
only `updatedAt`, provided the stored name, category and notes carry no
surrounding whitespace (truncation at a length cap can cut directly after
a space, which the second trim then removes) and the stored category is at
most 40 characters long and already fully lowercased (lowercasing runs
after truncation and can expand U+0130, making the stored category exceed
the cap and re-truncate on the next normalization). -/
theorem normalizeItem_idempotent (r : RawItem) (genId genId2 : List Char)
    (now now2 : Int) (item : Item)
    (h : normalizeItem (Payload.obj r) genId now = Except.ok item)
    (hn : jsTrim item.name = item.name)
    (hc : jsTrim item.category = item.category)
    (hno : jsTrim item.notes = item.notes)
    (hclen : item.category.length ≤ 40)
    (hclow : toLowerStr item.category = item.category) :
    normalizeItem (Payload.obj (itemToRaw item)) genId2 now2 =
      Except.ok { item with updatedAt := now2 } := by
  obtain ⟨expiry, hexp, hname, hitem⟩ :=
    (normalizeItem_ok_iff r genId now item).mp h
  have hqb := normalizeItem_ok_quantity r genId now item h
  have hnameval : item.name = (jsTrim (r.name.getD [])).take 80 := by
    rw [hitem]; rfl
  have hnotesval : item.notes = (jsTrim (r.notes.getD [])).take 240 := by
    rw [hitem]; rfl
  have hexpval : item.expiresOn = startOfDay expiry := by
    rw [hitem]; rfl
  have h80 : item.name.length ≤ 80 := by
    rw [hnameval, List.length_take]; exact min_le_left _ _
  have h240 : item.notes.length ≤ 240 := by
    rw [hnotesval, List.length_take]; exact min_le_left _ _
  have f2 : (jsTrim item.name).take 80 = item.name := by
    rw [hn]; exact List.take_of_length_le h80
  have f3 : toLowerStr ((jsTrim item.category).take 40) = item.category := by
    rw [hc, List.take_of_length_le hclen, hclow]
  have f4 : max 1 (min 999 (jsRound (item.quantity : ℚ))) = item.quantity := by
    rw [jsRound_intCast, min_eq_right hqb.2, max_eq_right hqb.1]
  have f5 : startOfDay item.expiresOn = item.expiresOn := by
    rw [hexpval]; exact startOfDay_idem expiry
  have f6 : (jsTrim item.notes).take 240 = item.notes := by
    rw [hno]; exact List.take_of_length_le h240
  apply (normalizeItem_ok_iff _ _ _ _).mpr
  refine ⟨item.expiresOn, rfl, ?_, ?_⟩
  · show (jsTrim item.name).take 80 ≠ []
    rw [f2, hitem]
    exact hname
  · simp only [normalizedRecord, itemToRaw, normalizeString, Option.getD_some,
      Bool.if_false_left]
    rw [f2, f3, f4, f5, f6]
    rfl

/-- Raw input for the C7 witness: fields already in normal form. -/
def rawPlain : RawItem :=
  { id := some ['p'], name := some ['n'], category := some ['d']
    quantity := some 2, expiresOn := some 0, notes := some ['o']
    createdAt := some 4 }

/-- Normalization of `rawPlain`. -/
def itemPlain : Item :=
  { id := ['p'], name := ['n'], category := ['d'], quantity := 2
    expiresOn := 0, notes := ['o'], createdAt := 4, updatedAt := 5 }

/-- Witness for the amended C7 at a concrete record. -/
theorem normalizeItem_idempotent_witness :
    normalizeItem (Payload.obj (itemToRaw itemPlain)) ['h'] 6 =
      Except.ok { itemPlain with updatedAt := 6 } :=
  normalizeItem_idempotent rawPlain ['g'] ['h'] 5 6 itemPlain
    (by decide) (by decide) (by decide) (by decide) (by decide) (by decide)

/-- The string `"all"`. -/
def allStr : List Char := "all".toList

/-- The string `"fresh"`. -/
def freshStr : List Char := "fresh".toList

/-- The string `"expiring"`. -/
def expiringStr : List Char := "expiring".toList

/-- The string `"expired"`. -/
def expiredStr : List Char := "expired".toList

/-- The serialized form of a computed status, as `itemStatus` returns it. -/
def statusStr : Status → List Char
  | Status.fresh => freshStr
  | Status.expiring => expiringStr
  | Status.expired => expiredStr

/-- The `allowedStatuses` set of the GET /api/items handler. -/
def allowedStatuses : List (List Char) :=
  [allStr, freshStr, expiringStr, expiredStr]

/-- Embeds the GET /api/items handler: lowercases `req.query.status ??
"all"`, rejects unrecognized filters with a 400 (`Except.error ()`),
otherwise decorates every stored item with `toApiItem`, sorts ascending by
`expiresOn` (stable `Array.prototype.sort` with a numeric comparator,
modelled by `mergeSort`), filters by computed status unless the filter is
`"all"`, and responds with the items and their count. -/
def getItems (items : List Item) (statusQuery : Option (List Char))
    (now : Int) : Except Unit (List ApiItem × Nat) :=
  let statusFilter := toLowerStr (statusQuery.getD allStr)
  if statusFilter ∈ allowedStatuses then
    let allItems := (items.map (fun item => toApiItem item now)).mergeSort
      (fun a b => decide (a.expiresOn ≤ b.expiresOn))
    let filtered :=
      if statusFilter = allStr then allItems
      else allItems.filter (fun item => decide (statusStr item.status = statusFilter))
    Except.ok (filtered, filtered.length)
  else Except.error ()

/-- C8: the list endpoint 400s on an unrecognized status filter; on a
recognized one it returns the stored items decorated by `toApiItem`,
sorted by `expiresOn` ascending, restricted to the computed status unless
the filter is `all`, with `total` the number of returned items. -/
theorem getItems_spec (items : List Item) (statusQuery : Option (List Char))
    (now : Int) :
    (toLowerStr (statusQuery.getD allStr) ∉ allowedStatuses →
      getItems items statusQuery now = Except.error ()) ∧
    (∀ res total, getItems items statusQuery now = Except.ok (res, total) →
      total = res.length ∧
      res.Pairwise (fun a b => a.expiresOn ≤ b.expiresOn) ∧
      (toLowerStr (statusQuery.getD allStr) = allStr →
        res.Perm (items.map (fun item => toApiItem item now))) ∧
      (toLowerStr (statusQuery.getD allStr) ≠ allStr →
        res.Perm ((items.map (fun item => toApiItem item now)).filter
          (fun item => decide (statusStr item.status =
            toLowerStr (statusQuery.getD allStr)))))) := by
  constructor
  · intro hbad
    simp only [getItems]
    rw [if_neg hbad]
  · intro res total h
    simp only [getItems] at h
    split at h
    case isFalse => simp at h
    case isTrue hmem =>
      rw [Except.ok.injEq, Prod.mk.injEq] at h
      obtain ⟨hres, htotal⟩ := h
      have htrans : ∀ a b c : ApiItem,
          decide (a.expiresOn ≤ b.expiresOn) = true →
          decide (b.expiresOn ≤ c.expiresOn) = true →
          decide (a.expiresOn ≤ c.expiresOn) = true := by
        intro a b c hab hbc
        simp only [decide_eq_true_eq] at *
        exact le_trans hab hbc
      have htot : ∀ a b : ApiItem,
          (decide (a.expiresOn ≤ b.expiresOn) ||
            decide (b.expiresOn ≤ a.expiresOn)) = true := by
        intro a b
        simpa using le_total a.expiresOn b.expiresOn
      have hsorted := List.sorted_mergeSort htrans htot
        (items.map (fun item => toApiItem item now))
      have hperm := List.mergeSort_perm
        (items.map (fun item => toApiItem item now))
        (fun a b => decide (a.expiresOn ≤ b.expiresOn))
      refine ⟨?_, ?_, ?_, ?_⟩
      · rw [← hres, ← htotal]
      · rw [← hres]
        split
        · exact hsorted.imp fun hab => of_decide_eq_true hab
        · exact (hsorted.filter _).imp fun hab => of_decide_eq_true hab
      · intro hall
        rw [← hres, if_pos hall]
        exact hperm
      · intro hnotall
        rw [← hres, if_neg hnotall]
        exact hperm.filter _

/-- Witness for C8: an unrecognized filter is rejected, and the default
listing of the empty collection is returned with a zero count. -/
theorem getItems_spec_witness :
    getItems [itemA] (some ['z']) 9 = Except.error () ∧
    (0 = ([] : List ApiItem).length ∧
     List.Pairwise (fun a b : ApiItem => a.expiresOn ≤ b.expiresOn)
       ([] : List ApiItem) ∧
     (toLowerStr ((none : Option (List Char)).getD allStr) = allStr →
       List.Perm ([] : List ApiItem)
         (([] : List Item).map (fun item => toApiItem item 9))) ∧
     (toLowerStr ((none : Option (List Char)).getD allStr) ≠ allStr →
       List.Perm ([] : List ApiItem)
         ((([] : List Item).map (fun item => toApiItem item 9)).filter
           (fun item => decide (statusStr item.status =
             toLowerStr ((none : Option (List Char)).getD allStr)))))) :=
  ⟨(getItems_spec [itemA] (some ['z']) 9).1 (by decide),
   (getItems_spec [] none 9).2 [] 0 (by
     have h1 : toLowerStr allStr = allStr := by decide
     simp [getItems, h1, allowedStatuses, List.mergeSort_nil])⟩

/-- A per-IP entry of the rate limiter `buckets` map. -/
structure Bucket where
  windowStartMs : Int
  count : Nat
deriving DecidableEq, Repr

/-- The `buckets` map of `createRateLimiter`, keyed by ip. -/
def RLState : Type := List Char → Option Bucket

/-- Embeds `buckets.set(ip, b)`. -/
def RLState.set (st : RLState) (ip : List Char) (b : Bucket) : RLState :=
  fun k => if k = ip then some b else st k

/-- Embeds one call of the closure returned by `createRateLimiter`:
returns the new map, the `allowed` flag and the `remaining` value. -/
def limiterStep (windowMs : Int) (maxRequests : Nat) (st : RLState)
    (ip : List Char) (nowMs : Int) : RLState × Bool × Int :=
  match st ip with
  | none => (st.set ip ⟨nowMs, 1⟩, true, (maxRequests : Int) - 1)
  | some current =>
    if nowMs - current.windowStartMs ≥ windowMs then
      (st.set ip ⟨nowMs, 1⟩, true, (maxRequests : Int) - 1)
    else if current.count ≥ maxRequests then
      (st, false, 0)
    else
      (st.set ip ⟨current.windowStartMs, current.count + 1⟩, true,
        (maxRequests : Int) - (current.count + 1))

/-- Runs the limiter over a list of request times from one ip, returning
the final map and how many of the requests were allowed. -/
def runSameIp (windowMs : Int) (maxRequests : Nat) (ip : List Char) :
    RLState → List Int → RLState × Nat
  | st, [] => (st, 0)
  | st, t :: ts =>
    let step := limiterStep windowMs maxRequests st ip t
    let rest := runSameIp windowMs maxRequests ip step.1 ts
    (rest.1, (if step.2.1 then 1 else 0) + rest.2)

/-- Filling a window: starting from a bucket `(t0, c)` with `c ≤ N`,
processing requests that all fall inside the window leaves the window
start untouched, saturates the counter at `N` and allows exactly
`min (N - c)` of them. -/
theorem runSameIp_window_fill (W : Int) (N : Nat) (ip : List Char)
    (t0 : Int) (ts : List Int) (st : RLState) (c : Nat)
    (hb : st ip = some ⟨t0, c⟩) (hc : 1 ≤ c) (hcN : c ≤ N)
    (hts : ∀ t ∈ ts, t - t0 < W) :
    (runSameIp W N ip st ts).1 ip = some ⟨t0, min N (c + ts.length)⟩ ∧
    (runSameIp W N ip st ts).2 = min (N - c) ts.length := by
  induction ts generalizing st c with
  | nil =>
    simp only [runSameIp, hb, List.length_nil]
    constructor
    · rw [Nat.add_zero, Nat.min_eq_right hcN]
    · rw [Nat.min_eq_right (Nat.zero_le _)]
  | cons t ts ih =>
    have htw : t - t0 < W := hts t (List.mem_cons_self t ts)
    have hts2 : ∀ u ∈ ts, u - t0 < W := fun u hu =>
      hts u (List.mem_cons_of_mem t hu)
    by_cases hfull : c ≥ N
    · have hceq : c = N := le_antisymm hcN hfull
      have hstep : limiterStep W N st ip t = (st, false, 0) := by
        simp only [limiterStep, hb]
        rw [if_neg (by omega), if_pos (by omega)]
      have hrec := ih st c hb hc hcN hts2
      simp only [runSameIp, hstep]
      refine ⟨?_, ?_⟩
      · rw [hrec.1]
        congr 1
        rw [Bucket.mk.injEq]
        exact ⟨rfl, by simp [List.length_cons]; omega⟩
      · rw [if_neg (by simp), hrec.2]
        omega
    · have hlt : c < N := Nat.lt_of_not_le hfull
      have hstep : limiterStep W N st ip t =
          (st.set ip ⟨t0, c + 1⟩, true, (N : Int) - (c + 1)) := by
        simp only [limiterStep, hb]
        rw [if_neg (by omega), if_neg (by omega)]
      have hb2 : (st.set ip ⟨t0, c + 1⟩) ip = some ⟨t0, c + 1⟩ := by
        simp [RLState.set]
      have hrec := ih (st.set ip ⟨t0, c + 1⟩) (c + 1) hb2 (by omega) hlt hts2
      simp only [runSameIp, hstep]
      refine ⟨?_, ?_⟩
      · rw [hrec.1]
        congr 1
        rw [Bucket.mk.injEq]
        exact ⟨rfl, by simp [List.length_cons]; omega⟩
      · rw [if_pos trivial, hrec.2]
        simp [List.length_cons]
        omega

/-- C9: once a window opened at `t0` has allowed `N` requests from an ip
(the opener plus `N - 1` in-window follow-ups), every further request from
that ip strictly inside the window is denied and leaves the map untouched,
while the first request at or past `t0 + W` is allowed and starts a new
window with the counter reset to 1. -/
theorem rate_limit_fixed_window (W : Int) (N : Nat) (ip : List Char)
    (st0 : RLState) (t0 : Int) (ts : List Int) (t t2 : Int)
    (hN : 1 ≤ N) (hfresh : st0 ip = none)
    (hts : ∀ u ∈ ts, u - t0 < W) (hlen : N - 1 ≤ ts.length)
    (ht : t - t0 < W) (ht2 : W ≤ t2 - t0) :
    (runSameIp W N ip (limiterStep W N st0 ip t0).1 ts).2 = N - 1 ∧
    limiterStep W N (runSameIp W N ip (limiterStep W N st0 ip t0).1 ts).1
      ip t = ((runSameIp W N ip (limiterStep W N st0 ip t0).1 ts).1,
        false, 0) ∧
    (limiterStep W N (runSameIp W N ip (limiterStep W N st0 ip t0).1 ts).1
      ip t2).2.1 = true ∧
    (limiterStep W N (runSameIp W N ip (limiterStep W N st0 ip t0).1 ts).1
      ip t2).1 ip = some ⟨t2, 1⟩ := by
  have hopen : (limiterStep W N st0 ip t0).1 ip = some ⟨t0, 1⟩ := by
    simp [limiterStep, hfresh, RLState.set]
  have hfill := runSameIp_window_fill W N ip t0 ts
    (limiterStep W N st0 ip t0).1 1 hopen (le_refl 1) hN hts
  set stk := (runSameIp W N ip (limiterStep W N st0 ip t0).1 ts).1 with hstk
  have hbucket : stk ip = some ⟨t0, N⟩ := by
    rw [hfill.1]
    congr 2
    omega
  refine ⟨?_, ?_, ?_, ?_⟩
  · rw [hfill.2]; omega
  · simp only [limiterStep, hbucket]
    rw [if_neg (by omega), if_pos (by omega)]
  · simp only [limiterStep, hbucket]
    rw [if_pos (by omega)]
  · simp only [limiterStep, hbucket]
    rw [if_pos (by omega)]
    simp [RLState.set]

/-- The empty limiter map. -/
def rlEmpty : RLState := fun _ => none

set_option maxRecDepth 4000 in
/-- Witness for C9 with limit 2, window 10: requests at 0 and 1 are
allowed, a request at 2 is denied, a request at 10 reopens. -/
theorem rate_limit_fixed_window_witness :
    (runSameIp 10 2 ['i'] (limiterStep 10 2 rlEmpty ['i'] 0).1 [1]).2 = 1 ∧
    limiterStep 10 2 (runSameIp 10 2 ['i']
        (limiterStep 10 2 rlEmpty ['i'] 0).1 [1]).1 ['i'] 2 =
      ((runSameIp 10 2 ['i'] (limiterStep 10 2 rlEmpty ['i'] 0).1 [1]).1,
        false, 0) ∧
    (limiterStep 10 2 (runSameIp 10 2 ['i']
        (limiterStep 10 2 rlEmpty ['i'] 0).1 [1]).1 ['i'] 10).2.1 = true ∧
    (limiterStep 10 2 (runSameIp 10 2 ['i']
        (limiterStep 10 2 rlEmpty ['i'] 0).1 [1]).1 ['i'] 10).1 ['i'] =
      some ⟨10, 1⟩ :=
  rate_limit_fixed_window 10 2 ['i'] rlEmpty 0 [1] 2 10
    (by decide) rfl (by decide) (by decide) (by decide) (by decide)

/-- Raw create input whose category is 40 copies of U+0130, for the C10
counterexample. -/
def rawDottedCat : RawItem :=
  { id := some ['t'], name := some ['n']
    category := some (List.replicate 40 'İ'), quantity := none
    expiresOn := some 0, notes := none, createdAt := none }

/-- Normalization of `rawDottedCat`: the 40 kept characters lowercase to
80 code points. -/
def itemDottedCat : Item :=
  { id := ['t'], name := ['n']
    category := toLowerStr (List.replicate 40 'İ'), quantity := 1
    expiresOn := 0, notes := [], createdAt := 0, updatedAt := 0 }

/-- C10 counterexample: lowercasing runs after truncation and U+0130
lowercases to two code points, so an accepted input stores a category of
80 characters, beyond the claimed 40-character bound. -/
theorem category_length_counterexample :
    normalizeItem (Payload.obj rawDottedCat) ['g'] 0 =
      Except.ok itemDottedCat ∧
    40 < itemDottedCat.category.length :=
  ⟨by decide, by decide⟩

/-- C10 amended: accepted inputs store a name of at most 80 characters and
notes of at most 240; the stored category is at most 80 characters — the
trim-then-slice keeps at most 40, and the later lowercasing maps each kept
character to at most two — and normalization succeeds exactly when
`expiresOn` parses and the trimmed name is non-empty, so an over-length
string field never by itself causes a validation error. -/
theorem string_truncation (r : RawItem) (genId : List Char) (now : Int) :
    (∀ item, normalizeItem (Payload.obj r) genId now = Except.ok item →
      item.name.length ≤ 80 ∧ item.category.length ≤ 80 ∧
        item.notes.length ≤ 240) ∧
    ((∃ item, normalizeItem (Payload.obj r) genId now = Except.ok item) ↔
      (r.expiresOn ≠ none ∧ jsTrim (r.name.getD []) ≠ [])) := by
  constructor
  · intro item h
    obtain ⟨expiry, hexp, hname, hitem⟩ :=
      (normalizeItem_ok_iff r genId now item).mp h
    refine ⟨?_, ?_, ?_⟩
    · have : item.name = (jsTrim (r.name.getD [])).take 80 := by
        rw [hitem]; rfl
      rw [this, List.length_take]
      exact min_le_left _ _
    · have hcat : item.category =
          toLowerStr ((jsTrim (r.category.getD generalStr)).take 40) := by
        rw [hitem]; rfl
      have h1 : ((jsTrim (r.category.getD generalStr)).take 40).length ≤ 40 := by
        rw [List.length_take]; exact min_le_left _ _
      have h2 := toLowerStr_length_le
        ((jsTrim (r.category.getD generalStr)).take 40)
      rw [hcat]
      omega
    · have : item.notes = (jsTrim (r.notes.getD [])).take 240 := by
        rw [hitem]; rfl
      rw [this, List.length_take]
      exact min_le_left _ _
  · constructor
    · rintro ⟨item, h⟩
      obtain ⟨expiry, hexp, hname, hitem⟩ :=
        (normalizeItem_ok_iff r genId now item).mp h
      refine ⟨by rw [hexp]; exact Option.some_ne_none expiry, ?_⟩
      intro hempty
      apply hname
      show (jsTrim (r.name.getD [])).take 80 = []
      rw [hempty]
      rfl
    · rintro ⟨hexp, hname⟩
      obtain ⟨expiry, hexpiry⟩ := Option.ne_none_iff_exists.mp hexp
      refine ⟨normalizedRecord r genId now expiry, ?_⟩
      apply (normalizeItem_ok_iff r genId now _).mpr
      refine ⟨expiry, hexpiry.symm, ?_, rfl⟩
      show (jsTrim (r.name.getD [])).take 80 ≠ []
      intro hcut
      apply hname
      rcases List.take_eq_nil_iff.mp hcut with h80 | hnil
      · exact absurd h80 (by norm_num)
      · exact hnil

/-- Raw input with over-length name, category and notes, for the C10
witness. -/
def rawLong : RawItem :=
  { id := some ['l'], name := some (List.replicate 100 'a')
    category := some (List.replicate 50 'b'), quantity := none
    expiresOn := some 0, notes := some (List.replicate 300 'd')
    createdAt := none }

/-- Normalization of `rawLong`: each over-length field is cut to its cap. -/
def itemLong : Item :=
  { id := ['l'], name := List.replicate 80 'a'
    category := List.replicate 40 'b', quantity := 1, expiresOn := 0
    notes := List.replicate 240 'd', createdAt := 0, updatedAt := 0 }

set_option maxRecDepth 8000 in
/-- Witness for C10: the over-length input is accepted and truncated. -/
theorem string_truncation_witness :
    (itemLong.name.length ≤ 80 ∧ itemLong.category.length ≤ 80 ∧
      itemLong.notes.length ≤ 240) ∧
    (∃ item, normalizeItem (Payload.obj rawLong) ['g'] 0 = Except.ok item) :=
  ⟨(string_truncation rawLong ['g'] 0).1 itemLong (by decide),
   (string_truncation rawLong ['g'] 0).2.mpr (by decide)⟩

end Xpire
